import Mathlib

/-!
Verification of the core logic of the `notion-github-graph` contribution
widget (`src/components/ContributionGraph.tsx`).

Shallow embedding conventions:
* A `Contribution` (day record) carries its `date` as an absolute calendar
  day number (`Nat`), with day `0` chosen to be a Sunday.  The source stores
  ISO `YYYY-MM-DD` strings and sorts them with `localeCompare`; for valid
  ISO dates lexicographic order coincides with chronological order, so
  sorting by the day number is the same order.  `date-fns`' `getDay`
  (weekday index, 0 = Sunday) becomes `date % 7` under this numbering.
* `Array.prototype.sort` with a `localeCompare` comparator is a stable
  ascending sort (ES2019); it is embedded as `List.insertionSort`, which is
  also stable.
* Pixel geometry (`DOMRect`, tooltip measurements) is embedded over `ℚ`.
* JavaScript array indexing that can yield `undefined`
  (`availableYears[i]`, `indexOf` returning `-1`) is embedded with
  `Option` results and `Int` indices.
-/

namespace NotionGithubGraph

/-- A day record (`Contribution` in the source): absolute day number
(day 0 is a Sunday), activity count, and intensity level. -/
structure Contribution where
  date : Nat
  count : Nat
  level : Nat
deriving DecidableEq, Repr, Inhabited

/-- `getDay` of `date-fns`: weekday index, 0 = Sunday, of an absolute day
number whose day 0 is a Sunday. -/
def getDay (d : Nat) : Nat := d % 7

/-- `[...contributions].sort((a, b) => a.date.localeCompare(b.date))`:
stable ascending sort by date. -/
def sortByDate (l : List Contribution) : List Contribution :=
  List.insertionSort (fun a b => a.date ≤ b.date) l

/-- The `while (currentWeek.length < 7) currentWeek.push(null)` padding of
the final partially-filled column. -/
def padWeek (w : List (Option Contribution)) : List (Option Contribution) :=
  w ++ List.replicate (7 - w.length) none

/-- The `sorted.forEach` loop of `processData` together with the final
padding step: consumes the sorted records, pushing each onto the current
column and closing the column whenever it reaches 7 slots; a non-empty
leftover column is padded to 7 with empty slots. -/
def chunkWeeks : List (Option Contribution) → List Contribution →
    List (List (Option Contribution))
  | currentWeek, [] =>
      if currentWeek.length = 0 then [] else [padWeek currentWeek]
  | currentWeek, day :: rest =>
      let cw := currentWeek ++ [some day]
      if cw.length = 7 then cw :: chunkWeeks [] rest else chunkWeeks cw rest

/-- `processData` (DataNormalizer): empty input gives an empty grid;
otherwise sort by date, start the first column with `getDay(sorted[0])`
empty slots, then chunk the records into 7-slot columns. -/
def processData (contributions : List Contribution) :
    List (List (Option Contribution)) :=
  if contributions.length = 0 then []
  else
    let sorted := sortByDate contributions
    let startDay := getDay (sorted.headD default).date
    chunkWeeks (List.replicate startDay none) sorted

/-- The leading pad `p` of an input: the weekday index of the earliest
record (head of the sorted input). -/
def startPad (l : List Contribution) : Nat :=
  getDay ((sortByDate l).headD default).date

lemma chunkWeeks_mem_length :
    ∀ (rest : List Contribution) (cw : List (Option Contribution)),
      cw.length < 7 → ∀ w ∈ chunkWeeks cw rest, w.length = 7 := by
  intro rest
  induction rest with
  | nil =>
      intro cw hcw w hw
      by_cases h0 : cw.length = 0
      · simp [chunkWeeks, h0] at hw
      · simp [chunkWeeks, h0] at hw
        subst hw
        simp [padWeek]
        omega
  | cons day rest ih =>
      intro cw hcw w hw
      by_cases h7 : (cw ++ [some day]).length = 7
      · simp only [chunkWeeks, h7, if_pos] at hw
        rcases List.mem_cons.mp hw with h | h
        · subst h; exact h7
        · exact ih [] (by simp) w h
      · simp only [chunkWeeks, h7, if_neg, not_false_iff] at hw
        refine ih (cw ++ [some day]) ?_ w hw
        simp at h7 ⊢
        omega

lemma chunkWeeks_count :
    ∀ (rest : List Contribution) (cw : List (Option Contribution)),
      cw.length < 7 →
      (chunkWeeks cw rest).length = (cw.length + rest.length + 6) / 7 := by
  intro rest
  induction rest with
  | nil =>
      intro cw hcw
      by_cases h0 : cw.length = 0
      · simp [chunkWeeks, h0]
      · simp [chunkWeeks, h0]
        omega
  | cons day rest ih =>
      intro cw hcw
      by_cases h7 : (cw ++ [some day]).length = 7
      · simp only [chunkWeeks, h7, if_pos, List.length_cons]
        rw [ih [] (by simp)]
        simp at h7
        simp
        omega
      · simp only [chunkWeeks, h7, if_neg, not_false_iff]
        rw [ih (cw ++ [some day]) (by simp at h7 ⊢; omega)]
        simp
        ring_nf

lemma length_sortByDate (l : List Contribution) :
    (sortByDate l).length = l.length :=
  List.length_insertionSort _ l

lemma startPad_lt (l : List Contribution) : startPad l < 7 :=
  Nat.mod_lt _ (by norm_num)

/-- C1: for a non-empty input of length `n` with leading pad `p`
(the weekday index of the earliest record), `processData` produces exactly
`⌈(n + p) / 7⌉ = (n + p + 6) / 7` columns, each of length exactly 7. -/
theorem processData_column_count (l : List Contribution) (h : l ≠ []) :
    (processData l).length = (l.length + startPad l + 6) / 7 ∧
    ∀ w ∈ processData l, w.length = 7 := by
  have hlen : l.length ≠ 0 := fun h0 => h (List.length_eq_zero.mp h0)
  have hpad : (List.replicate (getDay ((sortByDate l).headD default).date)
      (none : Option Contribution)).length < 7 := by
    rw [List.length_replicate]; exact startPad_lt l
  constructor
  · unfold processData
    rw [if_neg hlen]
    rw [chunkWeeks_count _ _ hpad]
    rw [length_sortByDate]
    simp only [List.length_replicate, startPad]
    ring_nf
  · intro w hw
    unfold processData at hw
    rw [if_neg hlen] at hw
    exact chunkWeeks_mem_length _ _ hpad w hw

/-- Concrete instantiation of C1: three records starting on a Friday
(day 5): `⌈(3 + 5)/7⌉ = 2` columns of length 7. -/
theorem processData_column_count_witness :
    (processData [⟨5, 1, 1⟩, ⟨6, 2, 2⟩, ⟨7, 0, 0⟩]).length =
      ([⟨5, 1, 1⟩, ⟨6, 2, 2⟩, (⟨7, 0, 0⟩ : Contribution)].length +
        startPad [⟨5, 1, 1⟩, ⟨6, 2, 2⟩, ⟨7, 0, 0⟩] + 6) / 7 ∧
    ∀ w ∈ processData [⟨5, 1, 1⟩, ⟨6, 2, 2⟩, ⟨7, 0, 0⟩], w.length = 7 :=
  processData_column_count _ (by decide)

instance : IsTotal Contribution (fun a b => a.date ≤ b.date) :=
  ⟨fun a b => Nat.le_total a.date b.date⟩

instance : IsTrans Contribution (fun a b => a.date ≤ b.date) :=
  ⟨fun _ _ _ => Nat.le_trans⟩

lemma chunkWeeks_records :
    ∀ (rest : List Contribution) (cw : List (Option Contribution)),
      ((chunkWeeks cw rest).flatten).filterMap id = cw.filterMap id ++ rest := by
  intro rest
  induction rest with
  | nil =>
      intro cw
      by_cases h0 : cw.length = 0
      · rw [List.length_eq_zero] at h0
        simp [chunkWeeks, h0]
      · simp [chunkWeeks, h0, padWeek, List.filterMap_append]
  | cons day rest ih =>
      intro cw
      by_cases h7 : (cw ++ [some day]).length = 7
      · simp only [chunkWeeks, h7, if_pos, List.flatten_cons, List.filterMap_append]
        rw [ih []]
        simp [List.filterMap_append]
      · simp only [chunkWeeks, h7, if_neg, not_false_iff]
        rw [ih (cw ++ [some day])]
        simp [List.filterMap_append]

/-- C2: the non-empty slots of the grid, concatenated in column order then
slot order, are exactly the input sorted ascending by date (a permutation of
the input, sorted by date; nothing dropped, duplicated or reordered), and
the empty input produces a grid with zero columns. -/
theorem processData_lossless (l : List Contribution) :
    ((processData l).flatten).filterMap id = sortByDate l ∧
    (sortByDate l).Perm l ∧
    List.Sorted (fun a b => a.date ≤ b.date) (sortByDate l) ∧
    processData [] = [] := by
  refine ⟨?_, List.perm_insertionSort _ l, List.sorted_insertionSort _ l, rfl⟩
  by_cases hlen : l.length = 0
  · rw [List.length_eq_zero] at hlen
    subst hlen
    simp [processData, sortByDate]
  · unfold processData
    rw [if_neg hlen]
    simp only []
    rw [chunkWeeks_records]
    simp

/-- Calendar contiguity of a record list: each record's date is the
immediate successor of the previous one. -/
def DatesContiguous (l : List Contribution) : Prop :=
  List.Chain' (fun a b => b.date = a.date + 1) l

lemma get_congr {l l' : List (List (Option Contribution))} (hll : l = l')
    {i : Nat} (hi : i < l.length) (hi' : i < l'.length) :
    l.get ⟨i, hi⟩ = l'.get ⟨i, hi'⟩ := by
  cases hll; rfl

lemma get_zero {x : List (Option Contribution)}
    {xs : List (List (Option Contribution))} (h : 0 < (x :: xs).length) :
    (x :: xs).get ⟨0, h⟩ = x := rfl

lemma get_succ {x : List (Option Contribution)}
    {xs : List (List (Option Contribution))} {j : Nat}
    (h : j + 1 < (x :: xs).length) (h' : j < xs.length) :
    (x :: xs).get ⟨j + 1, h⟩ = xs.get ⟨j, h'⟩ := rfl

lemma chunkWeeks_structure :
    ∀ (rest pre : List Contribution) (a : Nat),
      a + pre.length < 7 →
      ∀ i (h : i < (chunkWeeks (List.replicate a none ++ pre.map some) rest).length),
        ∃ (rs : List Contribution) (b : Nat),
          (chunkWeeks (List.replicate a none ++ pre.map some) rest).get ⟨i, h⟩ =
            List.replicate (if i = 0 then a else 0) none ++ List.map some rs ++
              List.replicate b none ∧
          (i + 1 < (chunkWeeks (List.replicate a none ++ pre.map some) rest).length →
            b = 0) := by
  intro rest
  induction rest with
  | nil =>
      intro pre a hlt i h
      by_cases h0 : (List.replicate a (none : Option Contribution) ++
          pre.map some).length = 0
      · have heqlist : chunkWeeks (List.replicate a none ++ pre.map some)
            ([] : List Contribution) = [] := by
          simp only [chunkWeeks, if_pos h0]
        rw [heqlist] at h
        exact absurd h (by simp)
      · have heqlist : chunkWeeks (List.replicate a none ++ pre.map some)
            ([] : List Contribution) =
            [padWeek (List.replicate a none ++ pre.map some)] := by
          simp only [chunkWeeks, if_neg h0]
        have hX : i < [padWeek (List.replicate a (none : Option Contribution) ++
            pre.map some)].length := by rw [← heqlist]; exact h
        have hi : i = 0 := Nat.lt_one_iff.mp (by simpa using hX)
        subst hi
        refine ⟨pre, 7 - (a + pre.length), ?_, ?_⟩
        · rw [get_congr heqlist _ hX, get_zero]
          simp only [if_pos rfl, padWeek]
          simp [List.append_assoc]
        · intro hcontra
          rw [heqlist] at hcontra
          simp at hcontra
  | cons day rest ih =>
      intro pre a hlt i h
      have hcw : List.replicate a (none : Option Contribution) ++ pre.map some
            ++ [some day] =
          List.replicate a none ++ (pre ++ [day]).map some := by
        simp
      by_cases h7 : ((List.replicate a (none : Option Contribution) ++
          pre.map some) ++ [some day]).length = 7
      · have heqlist : chunkWeeks (List.replicate a none ++ pre.map some)
            (day :: rest) =
            (List.replicate a none ++ pre.map some ++ [some day]) ::
              chunkWeeks [] rest := by
          simp only [chunkWeeks, if_pos h7]
        have hX : i < ((List.replicate a (none : Option Contribution) ++
            pre.map some ++ [some day]) :: chunkWeeks [] rest).length := by
          rw [← heqlist]; exact h
        match i, hX with
        | 0, hX =>
            refine ⟨pre ++ [day], 0, ?_, fun _ => rfl⟩
            rw [get_congr heqlist _ hX, get_zero]
            simp [hcw]
        | j + 1, hX =>
            have h'' : j <
                (chunkWeeks (List.replicate 0 (none : Option Contribution) ++
                  List.map some []) rest).length := by simpa using hX
            obtain ⟨rs, b, heq, hb⟩ := ih [] 0 (by norm_num) j h''
            refine ⟨rs, b, ?_, ?_⟩
            · have h3 : j < (chunkWeeks ([] : List (Option Contribution)) rest).length := by
                simpa using hX
              rw [get_congr heqlist _ hX, get_succ _ h3,
                get_congr (by simp) _ h'', heq]
              simp
            · intro hlen
              rw [heqlist] at hlen
              exact hb (by simpa using hlen)
      · have heqlist : chunkWeeks (List.replicate a none ++ pre.map some)
            (day :: rest) =
            chunkWeeks (List.replicate a none ++ (pre ++ [day]).map some)
              rest := by
          simp only [chunkWeeks, if_neg h7]
          rw [hcw]
        have hlt' : a + (pre ++ [day]).length < 7 := by
          simp at h7 ⊢
          omega
        have h'' : i < (chunkWeeks (List.replicate a (none : Option Contribution) ++
            (pre ++ [day]).map some) rest).length := by
          rw [← heqlist]; exact h
        obtain ⟨rs, b, heq, hb⟩ := ih (pre ++ [day]) a hlt' i h''
        refine ⟨rs, b, ?_, ?_⟩
        · rw [get_congr heqlist _ h'', heq]
        · intro hlen
          apply hb
          rw [← heqlist]; exact hlen

lemma processData_records_map (l : List Contribution) (h : l.length ≠ 0) :
    ((processData l).map (List.filterMap id)).flatten = sortByDate l := by
  have h1 := (processData_lossless l).1
  rw [List.filterMap_flatten] at h1
  exact h1

/-- C3, amended: for inputs whose date-sorted records form a run of
consecutive calendar dates (a contiguous range with at most one record per
date), the grid satisfies: every column has length 7; the non-empty slots
of each column hold calendar-contiguous consecutive dates; and each column
consists of a run of empty slots (possible only in the first column, where
it has the size of the weekday pad), then records, then a run of empty
slots (possible only in the last column).  The length and empty-run
structure in fact hold for every input. -/
theorem processData_grid_invariants (l : List Contribution)
    (hchain : DatesContiguous (sortByDate l)) :
    (∀ col ∈ processData l, col.length = 7) ∧
    (∀ col ∈ processData l, DatesContiguous (col.filterMap id)) ∧
    (∀ i (h : i < (processData l).length), ∃ (rs : List Contribution) (b : Nat),
      (processData l).get ⟨i, h⟩ =
        List.replicate (if i = 0 then startPad l else 0) none ++
          List.map some rs ++ List.replicate b none ∧
      (i + 1 < (processData l).length → b = 0)) := by
  by_cases hlen : l.length = 0
  · rw [List.length_eq_zero] at hlen
    subst hlen
    refine ⟨?_, ?_, ?_⟩ <;> intro x hx <;> simp [processData] at hx
  · have hlen' : l.length ≠ 0 := hlen
    refine ⟨?_, ?_, ?_⟩
    · intro col hcol
      unfold processData at hcol
      rw [if_neg hlen] at hcol
      apply chunkWeeks_mem_length _ _ _ col hcol
      rw [List.length_replicate]; exact startPad_lt l
    · intro col hcol
      have hinfix : col.filterMap id <:+: sortByDate l := by
        rw [← processData_records_map l hlen']
        exact List.infix_of_mem_flatten (List.mem_map_of_mem _ hcol)
      exact hchain.infix hinfix
    · intro i h
      have hpd : processData l =
          chunkWeeks (List.replicate (startPad l) none ++ List.map some [])
            (sortByDate l) := by
        unfold processData
        rw [if_neg hlen]
        simp [startPad]
      have h' : i < (chunkWeeks (List.replicate (startPad l) none ++
          List.map some []) (sortByDate l)).length := by
        rw [← hpd]; exact h
      obtain ⟨rs, b, heq, hb⟩ := chunkWeeks_structure (sortByDate l) [] (startPad l)
        (by simpa using startPad_lt l) i h'
      refine ⟨rs, b, ?_, ?_⟩
      · rw [get_congr hpd _ h', heq]
      · intro hlen2
        apply hb
        rw [← hpd]; exact hlen2

/-- Concrete instantiation of C3 (amended): four records on consecutive
days 5–8 (Friday start). -/
theorem processData_grid_invariants_witness :
    (∀ col ∈ processData [⟨5, 1, 1⟩, ⟨6, 2, 2⟩, ⟨7, 0, 0⟩, ⟨8, 3, 2⟩],
      col.length = 7) ∧
    (∀ col ∈ processData [⟨5, 1, 1⟩, ⟨6, 2, 2⟩, ⟨7, 0, 0⟩, ⟨8, 3, 2⟩],
      DatesContiguous (col.filterMap id)) ∧
    (∀ i (h : i <
        (processData [⟨5, 1, 1⟩, ⟨6, 2, 2⟩, ⟨7, 0, 0⟩, ⟨8, 3, 2⟩]).length),
      ∃ (rs : List Contribution) (b : Nat),
      (processData [⟨5, 1, 1⟩, ⟨6, 2, 2⟩, ⟨7, 0, 0⟩, ⟨8, 3, 2⟩]).get ⟨i, h⟩ =
        List.replicate
          (if i = 0 then startPad [⟨5, 1, 1⟩, ⟨6, 2, 2⟩, ⟨7, 0, 0⟩, ⟨8, 3, 2⟩]
            else 0) none ++ List.map some rs ++ List.replicate b none ∧
      (i + 1 < (processData [⟨5, 1, 1⟩, ⟨6, 2, 2⟩, ⟨7, 0, 0⟩, ⟨8, 3, 2⟩]).length →
        b = 0)) :=
  processData_grid_invariants _ (by
    have : sortByDate [⟨5, 1, 1⟩, ⟨6, 2, 2⟩, ⟨7, 0, 0⟩, ⟨8, 3, 2⟩] =
        [⟨5, 1, 1⟩, ⟨6, 2, 2⟩, ⟨7, 0, 0⟩, ⟨8, 3, 2⟩] := by decide
    rw [DatesContiguous, this]
    norm_num [List.chain'_cons])

/-- Counterexample to C3 as stated: the claim also covers sparse date
ranges, but for the sparse input with records on days 0 and 2 (at most one
record per date) the only column holds the two records in adjacent slots
with non-consecutive dates, so its non-empty slots are not
calendar-contiguous. -/
theorem processData_contiguity_counterexample :
    ¬ (∀ col ∈ processData [⟨0, 1, 1⟩, ⟨2, 1, 1⟩],
        DatesContiguous (col.filterMap id)) := by
  intro hcl
  have hcol : [some (⟨0, 1, 1⟩ : Contribution), some ⟨2, 1, 1⟩,
      none, none, none, none, none] ∈ processData [⟨0, 1, 1⟩, ⟨2, 1, 1⟩] := by
    decide
  have hchain := hcl _ hcol
  have heval : ([some (⟨0, 1, 1⟩ : Contribution), some ⟨2, 1, 1⟩,
      none, none, none, none, none].filterMap id) =
      [⟨0, 1, 1⟩, ⟨2, 1, 1⟩] := by decide
  rw [DatesContiguous, heval] at hchain
  norm_num [List.chain'_cons] at hchain

/-! ### Tooltip placement (`Tooltip`'s `useLayoutEffect`) -/

/-- The fields of the anchor `DOMRect` used by the positioning logic. -/
structure Rect where
  top : ℚ
  bottom : ℚ
  left : ℚ
  width : ℚ
deriving DecidableEq

/-- The measured size of the tooltip content (`getBoundingClientRect` of the
tooltip element). -/
structure TooltipSize where
  width : ℚ
  height : ℚ
deriving DecidableEq

/-- The state set by `setCoords`. -/
structure TooltipCoords where
  top : ℚ
  left : ℚ
  arrowOffset : ℚ
  flipped : Bool
deriving DecidableEq

/-- `TOOLTIP_OFFSET` constant of the source. -/
def TOOLTIP_OFFSET : ℚ := 8

/-- The `padding` local of the positioning effect. -/
def TOOLTIP_PADDING : ℚ := 12

/-- The body of the `useLayoutEffect` positioning logic: ideal center above
the tile, flip below when there is not enough space above, then clamp the
horizontal center to the viewport with an arrow-offset correction.  The
source uses the fixed constants `TOOLTIP_OFFSET = 8` and `padding = 12`;
they are taken as parameters here, exactly as the computation uses them. -/
def computeTooltipCoords (targetRect : Rect) (tooltip : TooltipSize)
    (viewportWidth offset padding : ℚ) : TooltipCoords :=
  let left := targetRect.left + targetRect.width / 2
  let spaceAbove := targetRect.top
  let requiredSpace := tooltip.height + offset + padding
  let flipped : Bool := decide (spaceAbove < requiredSpace)
  let top := if flipped then targetRect.bottom + offset
    else targetRect.top - offset
  let halfWidth := tooltip.width / 2
  if left - halfWidth < padding then
    { top := top, left := halfWidth + padding,
      arrowOffset := left - (halfWidth + padding), flipped := flipped }
  else if left + halfWidth > viewportWidth - padding then
    { top := top, left := viewportWidth - halfWidth - padding,
      arrowOffset := left - (viewportWidth - halfWidth - padding),
      flipped := flipped }
  else
    { top := top, left := left, arrowOffset := 0, flipped := flipped }

/-- C4: the placement flips below (`flipped = true`,
`top = anchor.bottom + offset`) exactly when
`anchor.top < tooltipSize.height + offset + padding`, and otherwise keeps
the tooltip above with `top = anchor.top - offset`. -/
theorem tooltip_vertical_rule (rect : Rect) (size : TooltipSize)
    (vw offset padding : ℚ) :
    ((computeTooltipCoords rect size vw offset padding).flipped = true ↔
      rect.top < size.height + offset + padding) ∧
    (computeTooltipCoords rect size vw offset padding).top =
      (if rect.top < size.height + offset + padding then rect.bottom + offset
        else rect.top - offset) := by
  by_cases hv : rect.top < size.height + offset + padding <;>
    simp [computeTooltipCoords, hv, apply_ite TooltipCoords.flipped,
      apply_ite TooltipCoords.top]

/-- Concrete instantiation of C4, the spec's example: anchor `top = 5`,
tooltip `height = 40`, `offset = 8`, `padding = 12`: required space
`60 > 5`, so `flipped = true` and `top = anchor.bottom + 8`. -/
theorem tooltip_vertical_rule_witness :
    ((computeTooltipCoords ⟨5, 20, 100, 10⟩ ⟨50, 40⟩ 1000 TOOLTIP_OFFSET
        TOOLTIP_PADDING).flipped = true ↔
      (5 : ℚ) < 40 + TOOLTIP_OFFSET + TOOLTIP_PADDING) ∧
    (computeTooltipCoords ⟨5, 20, 100, 10⟩ ⟨50, 40⟩ 1000 TOOLTIP_OFFSET
        TOOLTIP_PADDING).top =
      (if (5 : ℚ) < 40 + TOOLTIP_OFFSET + TOOLTIP_PADDING
        then (20 : ℚ) + TOOLTIP_OFFSET else (5 : ℚ) - TOOLTIP_OFFSET) :=
  tooltip_vertical_rule ⟨5, 20, 100, 10⟩ ⟨50, 40⟩ 1000 TOOLTIP_OFFSET
    TOOLTIP_PADDING

/-- C5, amended: the two horizontal clamps are tried in order (`else if` in
the source), so the left clamp takes precedence when both edge conditions
hold; under that proviso the final center and arrow offset are as the claim
states, and `arrowOffset = idealCenter - finalCenter` holds in every case,
vanishing exactly when neither clamp fired. -/
theorem tooltip_horizontal_rule (rect : Rect) (size : TooltipSize)
    (vw offset padding : ℚ) :
    (rect.left + rect.width / 2 - size.width / 2 < padding →
      (computeTooltipCoords rect size vw offset padding).left =
        padding + size.width / 2) ∧
    (¬(rect.left + rect.width / 2 - size.width / 2 < padding) →
      rect.left + rect.width / 2 + size.width / 2 > vw - padding →
      (computeTooltipCoords rect size vw offset padding).left =
        vw - padding - size.width / 2) ∧
    (¬(rect.left + rect.width / 2 - size.width / 2 < padding) →
      ¬(rect.left + rect.width / 2 + size.width / 2 > vw - padding) →
      (computeTooltipCoords rect size vw offset padding).left =
        rect.left + rect.width / 2) ∧
    (computeTooltipCoords rect size vw offset padding).arrowOffset =
      rect.left + rect.width / 2 -
        (computeTooltipCoords rect size vw offset padding).left ∧
    ((computeTooltipCoords rect size vw offset padding).arrowOffset = 0 ↔
      (¬(rect.left + rect.width / 2 - size.width / 2 < padding) ∧
        ¬(rect.left + rect.width / 2 + size.width / 2 > vw - padding))) := by
  by_cases h1 : rect.left + rect.width / 2 - size.width / 2 < padding
  · have hl : (computeTooltipCoords rect size vw offset padding).left =
        size.width / 2 + padding := by
      simp [computeTooltipCoords, h1, apply_ite TooltipCoords.left]
    have ha : (computeTooltipCoords rect size vw offset padding).arrowOffset =
        rect.left + rect.width / 2 - (size.width / 2 + padding) := by
      simp [computeTooltipCoords, h1, apply_ite TooltipCoords.arrowOffset]
    refine ⟨fun _ => by rw [hl]; ring, fun hn _ => absurd h1 hn,
      fun hn _ => absurd h1 hn, by rw [ha, hl], ?_⟩
    rw [ha]
    constructor
    · intro h0
      exfalso
      linarith
    · rintro ⟨hn, -⟩
      exact absurd h1 hn
  · by_cases h2 : rect.left + rect.width / 2 + size.width / 2 > vw - padding
    · have hl : (computeTooltipCoords rect size vw offset padding).left =
          vw - size.width / 2 - padding := by
        simp [computeTooltipCoords, h1, h2, apply_ite TooltipCoords.left]
      have ha : (computeTooltipCoords rect size vw offset padding).arrowOffset =
          rect.left + rect.width / 2 - (vw - size.width / 2 - padding) := by
        simp [computeTooltipCoords, h1, h2, apply_ite TooltipCoords.arrowOffset]
      refine ⟨fun hc => absurd hc h1, fun _ _ => by rw [hl]; ring,
        fun _ hn => absurd h2 hn, by rw [ha, hl], ?_⟩
      rw [ha]
      constructor
      · intro h0
        exfalso
        linarith
      · rintro ⟨-, hn⟩
        exact absurd h2 hn
    · have hl : (computeTooltipCoords rect size vw offset padding).left =
          rect.left + rect.width / 2 := by
        simp [computeTooltipCoords, h1, h2, apply_ite TooltipCoords.left]
      have ha : (computeTooltipCoords rect size vw offset padding).arrowOffset =
          0 := by
        simp [computeTooltipCoords, h1, h2, apply_ite TooltipCoords.arrowOffset]
      refine ⟨fun hc => absurd hc h1, fun _ hc => absurd hc h2,
        fun _ _ => hl, by rw [ha, hl]; ring, ?_⟩
      rw [ha]
      simp [h1, h2]

/-- Concrete instantiation of C5 (amended), the spec's example: anchor
center `x = 5`, tooltip `width = 100`, `padding = 12`: the left clamp fires
(`5 - 50 < 12`), the center becomes `62` and `arrowOffset = -57`. -/
theorem tooltip_horizontal_rule_witness :
    ((0 : ℚ) + 10 / 2 - 100 / 2 < TOOLTIP_PADDING →
      (computeTooltipCoords ⟨100, 120, 0, 10⟩ ⟨100, 40⟩ 1000 TOOLTIP_OFFSET
        TOOLTIP_PADDING).left = TOOLTIP_PADDING + 100 / 2) ∧
    ((0 : ℚ) + 10 / 2 - 100 / 2 < TOOLTIP_PADDING ∧
      (computeTooltipCoords ⟨100, 120, 0, 10⟩ ⟨100, 40⟩ 1000 TOOLTIP_OFFSET
        TOOLTIP_PADDING).left = 62 ∧
      (computeTooltipCoords ⟨100, 120, 0, 10⟩ ⟨100, 40⟩ 1000 TOOLTIP_OFFSET
        TOOLTIP_PADDING).arrowOffset = -57) := by
  refine ⟨(tooltip_horizontal_rule ⟨100, 120, 0, 10⟩ ⟨100, 40⟩ 1000
    TOOLTIP_OFFSET TOOLTIP_PADDING).1, ?_, ?_, ?_⟩
  · norm_num [TOOLTIP_PADDING]
  · have := (tooltip_horizontal_rule ⟨100, 120, 0, 10⟩ ⟨100, 40⟩ 1000
      TOOLTIP_OFFSET TOOLTIP_PADDING).1 (by norm_num [TOOLTIP_PADDING])
    rw [this]
    norm_num [TOOLTIP_PADDING]
  · have h4 := (tooltip_horizontal_rule ⟨100, 120, 0, 10⟩ ⟨100, 40⟩ 1000
      TOOLTIP_OFFSET TOOLTIP_PADDING).2.2.2.1
    have h1 := (tooltip_horizontal_rule ⟨100, 120, 0, 10⟩ ⟨100, 40⟩ 1000
      TOOLTIP_OFFSET TOOLTIP_PADDING).1 (by norm_num [TOOLTIP_PADDING])
    rw [h4, h1]
    norm_num [TOOLTIP_PADDING]

/-- Counterexample to C5 as stated: the claim reads the two clamp
conditions as independent, but with anchor center `50`, tooltip width
`100`, viewport width `100` and padding `12` both conditions hold; the code
takes only the left clamp (`left = 62`), while the claim's right-clamp
sentence would demand `left = 100 - 12 - 50 = 38`. -/
theorem tooltip_horizontal_counterexample :
    (0 : ℚ) + 100 / 2 + 100 / 2 > 100 - 12 ∧
    (computeTooltipCoords ⟨0, 10, 0, 100⟩ ⟨100, 40⟩ 100 8 12).left ≠
      100 - 12 - 100 / 2 := by
  constructor
  · norm_num
  · have : (computeTooltipCoords ⟨0, 10, 0, 100⟩ ⟨100, 40⟩ 100 8 12).left =
        62 := by
      norm_num [computeTooltipCoords]
    rw [this]
    norm_num

/-! ### Year navigation (`currentYearIndex`, `canGoPrev`, `canGoNext`,
`handleYearChange`) -/

/-- JS `Array.prototype.indexOf`: index of the first occurrence of `y`,
`-1` when absent. -/
def jsIndexOf : List String → String → Int
  | [], _ => -1
  | a :: rest, y =>
      if a = y then 0
      else if jsIndexOf rest y = -1 then -1 else jsIndexOf rest y + 1

/-- JS array subscript with a possibly negative index: `undefined`
(embedded as `none`) when out of bounds. -/
def jsGet (l : List String) (i : Int) : Option String :=
  if 0 ≤ i then l.get? i.toNat else none

/-- `currentYearIndex`: `-1` for the `'last'` sentinel, otherwise
`availableYears.indexOf(year)`. -/
def currentYearIndex (year : String) (availableYears : List String) : Int :=
  if year = "last" then -1 else jsIndexOf availableYears year

/-- `canGoPrev` as derived in the component. -/
def canGoPrev (year : String) (availableYears : List String) : Bool :=
  if availableYears.length = 0 then false
  else if year = "last" then true
  else decide (currentYearIndex year availableYears <
    (availableYears.length : Int) - 1)

/-- `canGoNext` as derived in the component. -/
def canGoNext (year : String) (availableYears : List String) : Bool :=
  if availableYears.length = 0 then false
  else decide (year ≠ "last")

/-- The two directions accepted by `handleYearChange`. -/
inductive Dir where
  | prev
  | next
deriving DecidableEq

/-- `handleYearChange`: the resulting `year` state.  A result of `none`
models `setYear(undefined)`, i.e. an out-of-bounds array access; a guarded
no-op leaves the year unchanged (`some year`). -/
def handleYearChange (dir : Dir) (year : String) (availableYears : List String) :
    Option String :=
  match dir with
  | .prev =>
      if canGoPrev year availableYears then
        if year = "last" then jsGet availableYears 0
        else jsGet availableYears (currentYearIndex year availableYears + 1)
      else some year
  | .next =>
      if canGoNext year availableYears then
        if currentYearIndex year availableYears = 0 then some "last"
        else jsGet availableYears (currentYearIndex year availableYears - 1)
      else some year

lemma jsIndexOf_of_not_mem {l : List String} {y : String} (h : y ∉ l) :
    jsIndexOf l y = -1 := by
  induction l with
  | nil => rfl
  | cons a rest ih =>
      have ha : a ≠ y := fun hay => h (hay ▸ List.mem_cons_self a rest)
      have hrest : y ∉ rest := fun hy => h (List.mem_cons_of_mem a hy)
      simp [jsIndexOf, ha, ih hrest]

lemma jsIndexOf_nonneg_of_mem {l : List String} {y : String} (h : y ∈ l) :
    0 ≤ jsIndexOf l y := by
  induction l with
  | nil => exact absurd h (List.not_mem_nil y)
  | cons a rest ih =>
      by_cases ha : a = y
      · simp [jsIndexOf, ha]
      · have hy : y ∈ rest := by
          rcases List.mem_cons.mp h with h' | h'
          · exact absurd h'.symm ha
          · exact h'
        have h0 := ih hy
        have hne : jsIndexOf rest y ≠ -1 := by omega
        simp only [jsIndexOf, if_neg ha, if_neg hne]
        omega

lemma jsIndexOf_lt_length_of_mem {l : List String} {y : String} (h : y ∈ l) :
    jsIndexOf l y < (l.length : Int) := by
  induction l with
  | nil => exact absurd h (List.not_mem_nil y)
  | cons a rest ih =>
      by_cases ha : a = y
      · simp only [jsIndexOf, if_pos ha, List.length_cons]
        omega
      · have hy : y ∈ rest := by
          rcases List.mem_cons.mp h with h' | h'
          · exact absurd h'.symm ha
          · exact h'
        have h1 := ih hy
        have h0 := jsIndexOf_nonneg_of_mem hy
        have hne : jsIndexOf rest y ≠ -1 := by omega
        simp only [jsIndexOf, if_neg ha, if_neg hne, List.length_cons]
        omega

lemma jsIndexOf_get {l : List String} (hnd : l.Nodup) {i : Nat}
    (h : i < l.length) : jsIndexOf l (l.get ⟨i, h⟩) = i := by
  induction l generalizing i with
  | nil => exact absurd h (by simp)
  | cons a rest ih =>
      match i with
      | 0 => simp [jsIndexOf]
      | j + 1 =>
          have hj : j < rest.length := by simpa using h
          have hmem : rest.get ⟨j, hj⟩ ∈ rest := List.get_mem rest j hj
          have ha : a ≠ rest.get ⟨j, hj⟩ := by
            intro hay
            exact (List.nodup_cons.mp hnd).1 (hay ▸ hmem)
          have hrec := ih (List.nodup_cons.mp hnd).2 hj
          have hnn := jsIndexOf_nonneg_of_mem hmem
          have hne : jsIndexOf rest (rest.get ⟨j, hj⟩) ≠ -1 := by omega
          have hget : (a :: rest).get ⟨j + 1, h⟩ = rest.get ⟨j, hj⟩ := rfl
          rw [hget]
          simp only [jsIndexOf, if_neg ha, if_neg hne, hrec]
          omega

lemma jsGet_get {l : List String} {i : Nat} (h : i < l.length) :
    jsGet l (i : Int) = some (l.get ⟨i, h⟩) := by
  simp [jsGet, List.get?_eq_get h]

lemma jsGet_mem {l : List String} {i : Int} {y : String}
    (h : jsGet l i = some y) : y ∈ l := by
  unfold jsGet at h
  split at h
  · exact List.get?_mem h
  · exact absurd h (by simp)

lemma jsGet_ne_none {l : List String} {i : Int} (h0 : 0 ≤ i)
    (h1 : i < (l.length : Int)) : jsGet l i ≠ none := by
  have ht : i.toNat < l.length := by omega
  rw [jsGet, if_pos h0, List.get?_eq_get ht]
  simp

/-- C6: the year-navigation transitions over an available-years list
`Y[0..n-1]` (most recent first): `prev` from `'last'` goes to `Y[0]` when
the list is non-empty and is a no-op otherwise; `prev` from `Y[i]` goes to
`Y[i+1]` when `i+1 < n` and is otherwise a no-op; `next` from `Y[0]` goes
to `'last'`; `next` from `Y[i]` with `i > 0` goes to `Y[i-1]`; `next` from
`'last'` is a no-op.  The list is assumed duplicate-free and without the
`'last'` sentinel, as discovered from the distinct year keys of the API
response. -/
theorem yearNavigation_transitions (ys : List String) (hnd : ys.Nodup)
    (hlast : "last" ∉ ys) :
    (∀ h : 0 < ys.length,
      handleYearChange .prev "last" ys = some (ys.get ⟨0, h⟩)) ∧
    (ys = [] → handleYearChange .prev "last" ys = some "last") ∧
    (∀ i (h' : i + 1 < ys.length),
      handleYearChange .prev (ys.get ⟨i, Nat.lt_of_succ_lt h'⟩) ys =
        some (ys.get ⟨i + 1, h'⟩)) ∧
    (∀ i (h : i < ys.length), ¬(i + 1 < ys.length) →
      handleYearChange .prev (ys.get ⟨i, h⟩) ys = some (ys.get ⟨i, h⟩)) ∧
    (∀ h : 0 < ys.length,
      handleYearChange .next (ys.get ⟨0, h⟩) ys = some "last") ∧
    (∀ i (h : i < ys.length), 0 < i → ∀ h' : i - 1 < ys.length,
      handleYearChange .next (ys.get ⟨i, h⟩) ys =
        some (ys.get ⟨i - 1, h'⟩)) ∧
    handleYearChange .next "last" ys = some "last" := by
  have hy_ne : ∀ {i : Nat} (h : i < ys.length), ys.get ⟨i, h⟩ ≠ "last" := by
    intro i h hcontra
    exact hlast (hcontra ▸ List.get_mem ys i h)
  have hidx : ∀ {i : Nat} (h : i < ys.length),
      currentYearIndex (ys.get ⟨i, h⟩) ys = (i : Int) := by
    intro i h
    rw [currentYearIndex, if_neg (hy_ne h)]
    exact jsIndexOf_get hnd h
  refine ⟨?_, ?_, ?_, ?_, ?_, ?_, ?_⟩
  · intro h
    have hne : ys.length ≠ 0 := by omega
    rw [handleYearChange, canGoPrev, if_neg hne, if_pos rfl, if_pos rfl]
    exact jsGet_get h
  · intro h
    subst h
    rfl
  · intro i h'
    have h := Nat.lt_of_succ_lt h'
    have hne : ys.length ≠ 0 := by omega
    rw [handleYearChange, canGoPrev, if_neg hne, if_neg (hy_ne h), hidx h]
    rw [if_pos (decide_eq_true (by omega : (i : Int) < (ys.length : Int) - 1)),
      if_neg (hy_ne h)]
    have hcast : ((i : Int) + 1) = ((i + 1 : Nat) : Int) := by push_cast; ring
    rw [hcast]
    exact jsGet_get h'
  · intro i h hno
    have hne : ys.length ≠ 0 := by omega
    rw [handleYearChange, canGoPrev, if_neg hne, if_neg (hy_ne h), hidx h]
    rw [if_neg (by simp only [decide_eq_true_eq]; omega)]
  · intro h
    have hne : ys.length ≠ 0 := by omega
    rw [handleYearChange, canGoNext, if_neg hne,
      if_pos (decide_eq_true (hy_ne h)), hidx h,
      if_pos (by norm_num)]
  · intro i h hi h'
    have hne : ys.length ≠ 0 := by omega
    rw [handleYearChange, canGoNext, if_neg hne,
      if_pos (decide_eq_true (hy_ne h)), hidx h,
      if_neg (by omega : ¬((i : Int) = 0))]
    have hcast : ((i : Int) - 1) = ((i - 1 : Nat) : Int) := by omega
    rw [hcast]
    exact jsGet_get h'
  · rw [handleYearChange, canGoNext]
    by_cases hne : ys.length = 0
    · rw [if_pos hne]
      rfl
    · rw [if_neg hne, if_neg (by simp)]

/-- Concrete instantiation of C6, the spec's example: available years
`["2025", "2024", "2023"]`: `prev` from `'last'` gives `2025`, `prev` from
`2025` gives `2024`, `prev` at the oldest year `2023` is a no-op, `next`
from `2025` gives `'last'`, and `next` from `'last'` is a no-op. -/
theorem yearNavigation_transitions_witness :
    handleYearChange .prev "last" ["2025", "2024", "2023"] = some "2025" ∧
    handleYearChange .prev "2025" ["2025", "2024", "2023"] = some "2024" ∧
    handleYearChange .prev "2023" ["2025", "2024", "2023"] = some "2023" ∧
    handleYearChange .next "2025" ["2025", "2024", "2023"] = some "last" ∧
    handleYearChange .next "last" ["2025", "2024", "2023"] = some "last" := by
  have h := yearNavigation_transitions ["2025", "2024", "2023"]
    (by decide) (by decide)
  exact ⟨h.1 (by norm_num), h.2.2.1 0 (by norm_num),
    h.2.2.2.1 2 (by norm_num) (by norm_num), h.2.2.2.2.1 (by norm_num),
    h.2.2.2.2.2.2⟩

/-- C7: `canGoPrev` is true unless the current state is the oldest explicit
year or no years are available, and `canGoNext` is true exactly when the
state is not the `'last'` sentinel.  Both are plain functions of the
current year and the list (in the source, derived `useMemo` values with no
stored state).  The state is assumed to be `'last'` or a member of the
list, the list duplicate-free and without the sentinel. -/
theorem yearNavigation_flags (ys : List String) (year : String)
    (hnd : ys.Nodup) (hlast : "last" ∉ ys)
    (hstate : year = "last" ∨ year ∈ ys) :
    (canGoPrev year ys = true ↔
      ¬(ys = [] ∨ ∃ h : ys ≠ [], year = ys.getLast h)) ∧
    (canGoNext year ys = true ↔ year ≠ "last") := by
  constructor
  · rcases hstate with hstate | hstate
    · subst hstate
      by_cases hne : ys.length = 0
      · rw [canGoPrev, if_pos hne]
        rw [List.length_eq_zero] at hne
        simp [hne]
      · rw [canGoPrev, if_neg hne, if_pos rfl]
        have hys : ys ≠ [] := fun h => hne (by simp [h])
        simp only [true_iff]
        rintro (h | ⟨h, hget⟩)
        · exact hys h
        · exact hlast (hget ▸ List.getLast_mem h)
    · have hyne : year ≠ "last" := fun h => hlast (h ▸ hstate)
      have hne : ys.length ≠ 0 := by
        intro h0
        rw [List.length_eq_zero] at h0
        exact absurd (h0 ▸ hstate) (List.not_mem_nil year)
      have hys : ys ≠ [] := fun h => hne (by simp [h])
      obtain ⟨i, hgeti⟩ := List.mem_iff_get.mp hstate
      have hj : jsIndexOf ys year = (i.val : Int) := by
        have := jsIndexOf_get hnd i.isLt
        rw [Fin.eta, hgeti] at this
        exact this
      rw [canGoPrev, if_neg hne, if_neg hyne]
      rw [currentYearIndex, if_neg hyne, hj]
      have hgetLast : ys.getLast hys = ys.get ⟨ys.length - 1, by omega⟩ :=
        List.getLast_eq_get ys hys
      constructor
      · intro hlt hcontra
        rcases hcontra with h | ⟨h, hget⟩
        · exact hys h
        · simp only [decide_eq_true_eq] at hlt
          rw [← hgeti] at hget
          have hgl : ys.getLast h = ys.get ⟨ys.length - 1, by omega⟩ :=
            List.getLast_eq_get ys h
          rw [hgl] at hget
          have heq := (List.Nodup.get_inj_iff hnd).mp hget
          have hieq : (i : Nat) = ys.length - 1 := by
            simpa using congrArg Fin.val heq
          omega
      · intro hnot
        simp only [decide_eq_true_eq]
        by_contra hge
        have hieq : i.val = ys.length - 1 := by
          push_neg at hge
          have := i.isLt
          omega
        apply hnot
        refine Or.inr ⟨hys, ?_⟩
        rw [← hgeti, hgetLast]
        congr 1
        exact Fin.ext (by simpa using hieq)
  · by_cases hyne : year = "last"
    · subst hyne
      by_cases hne : ys.length = 0 <;> simp [canGoNext, hne]
    · have hmem : year ∈ ys := hstate.resolve_left hyne
      have hne : ys.length ≠ 0 := by
        intro h0
        rw [List.length_eq_zero] at h0
        exact absurd (h0 ▸ hmem) (List.not_mem_nil year)
      simp [canGoNext, hne, hyne]

/-- Concrete instantiation of C7, the spec's example: at the oldest year
`2023` of `["2025", "2024", "2023"]`, `canGoPrev` is false, and `canGoNext`
is true since the state is not `'last'`. -/
theorem yearNavigation_flags_witness :
    (canGoPrev "2023" ["2025", "2024", "2023"] = true ↔
      ¬((["2025", "2024", "2023"] : List String) = [] ∨
        ∃ h : (["2025", "2024", "2023"] : List String) ≠ [],
          "2023" = ["2025", "2024", "2023"].getLast h)) ∧
    (canGoNext "2023" ["2025", "2024", "2023"] = true ↔
      ("2023" : String) ≠ "last") :=
  yearNavigation_flags ["2025", "2024", "2023"] "2023" (by decide) (by decide)
    (Or.inr (by decide))

/-! ### Year-navigation state machine and array-access safety -/

/-- The component state relevant to year navigation: the `year` token and
the `availableYears` list. -/
structure NavState where
  year : String
  availableYears : List String
deriving DecidableEq

/-- The initial state: `useState('last')` and `useState([])`. -/
def navInit : NavState := ⟨"last", []⟩

/-- One step of the year-navigation state machine: either the
`availableYears` discovery in `fetchData` (guarded by
`availableYears.length === 0`; the discovered list is arbitrary, the year
is unchanged), or a `handleYearChange` that sets the year to the computed
value. -/
inductive NavStep : NavState → NavState → Prop
  | discover (s : NavState) (ys : List String) (h : s.availableYears = []) :
      NavStep s ⟨s.year, ys⟩
  | change (s : NavState) (dir : Dir) (y' : String)
      (h : handleYearChange dir s.year s.availableYears = some y') :
      NavStep s ⟨y', s.availableYears⟩

/-- Reachability from the initial state. -/
def NavReachable (s : NavState) : Prop :=
  Relation.ReflTransGen NavStep navInit s

/-- The invariant: a non-sentinel year is always a member of the
available-years list. -/
def NavInv (s : NavState) : Prop :=
  s.year = "last" ∨ s.year ∈ s.availableYears

lemma navInv_handleYearChange_ne_none {s : NavState} (hinv : NavInv s)
    (dir : Dir) : handleYearChange dir s.year s.availableYears ≠ none := by
  rcases dir with _ | _
  · rw [handleYearChange]
    by_cases hp : canGoPrev s.year s.availableYears
    · rw [if_pos hp]
      by_cases hl : s.year = "last"
      · rw [if_pos hl]
        rw [canGoPrev] at hp
        by_cases hne : s.availableYears.length = 0
        · rw [if_pos hne] at hp
          exact absurd hp (by simp)
        · exact jsGet_ne_none le_rfl (by omega)
      · rw [if_neg hl]
        have hmem : s.year ∈ s.availableYears := hinv.resolve_left hl
        have h0 := jsIndexOf_nonneg_of_mem hmem
        rw [canGoPrev] at hp
        by_cases hne : s.availableYears.length = 0
        · rw [if_pos hne] at hp
          exact absurd hp (by simp)
        · rw [if_neg hne, if_neg hl] at hp
          simp only [decide_eq_true_eq] at hp
          rw [currentYearIndex, if_neg hl] at hp ⊢
          exact jsGet_ne_none (by omega) (by omega)
    · rw [if_neg hp]
      simp
  · rw [handleYearChange]
    by_cases hn : canGoNext s.year s.availableYears
    · rw [if_pos hn]
      rw [canGoNext] at hn
      by_cases hne : s.availableYears.length = 0
      · rw [if_pos hne] at hn
        exact absurd hn (by simp)
      · rw [if_neg hne] at hn
        simp only [decide_eq_true_eq] at hn
        have hmem : s.year ∈ s.availableYears := hinv.resolve_left hn
        have h0 := jsIndexOf_nonneg_of_mem hmem
        have h1 := jsIndexOf_lt_length_of_mem hmem
        rw [currentYearIndex, if_neg hn]
        by_cases hz : jsIndexOf s.availableYears s.year = 0
        · rw [if_pos hz]
          simp
        · rw [if_neg hz]
          exact jsGet_ne_none (by omega) (by omega)
    · rw [if_neg hn]
      simp

lemma navInv_step {s s' : NavState} (hinv : NavInv s) (hstep : NavStep s s') :
    NavInv s' := by
  cases hstep with
  | discover ys h =>
    rcases hinv with hl | hmem
    · exact Or.inl hl
    · rw [h] at hmem
      exact absurd hmem (List.not_mem_nil _)
  | change dir y' h =>
    rcases dir with _ | _
    · rw [handleYearChange] at h
      by_cases hp : canGoPrev s.year s.availableYears
      · rw [if_pos hp] at h
        by_cases hl : s.year = "last"
        · rw [if_pos hl] at h
          exact Or.inr (jsGet_mem h)
        · rw [if_neg hl] at h
          exact Or.inr (jsGet_mem h)
      · rw [if_neg hp] at h
        rcases hinv with hl | hmem
        · exact Or.inl (by simpa using (Option.some_inj.mp h) ▸ hl)
        · exact Or.inr (by simpa using (Option.some_inj.mp h) ▸ hmem)
    · rw [handleYearChange] at h
      by_cases hn : canGoNext s.year s.availableYears
      · rw [if_pos hn] at h
        by_cases hz : currentYearIndex s.year s.availableYears = 0
        · rw [if_pos hz] at h
          exact Or.inl (Option.some_inj.mp h).symm
        · rw [if_neg hz] at h
          exact Or.inr (jsGet_mem h)
      · rw [if_neg hn] at h
        rcases hinv with hl | hmem
        · exact Or.inl (by simpa using (Option.some_inj.mp h) ▸ hl)
        · exact Or.inr (by simpa using (Option.some_inj.mp h) ▸ hmem)

/-- C10: in every reachable state of the year-navigation machine, a
non-sentinel year token is a member of the available-years list, its
`currentYearIndex` is a valid (non-negative, in-bounds) index, and for
either direction `handleYearChange` never evaluates to `undefined` — i.e.
the guarded array accesses `availableYears[0]`,
`availableYears[currentYearIndex + 1]` and
`availableYears[currentYearIndex - 1]` are always in bounds. -/
theorem navReachable_safety (s : NavState) (hreach : NavReachable s) :
    NavInv s ∧
    (s.year ≠ "last" →
      0 ≤ currentYearIndex s.year s.availableYears ∧
      currentYearIndex s.year s.availableYears <
        (s.availableYears.length : Int)) ∧
    (∀ dir, handleYearChange dir s.year s.availableYears ≠ none) := by
  have hinv : NavInv s := by
    induction hreach with
    | refl => exact Or.inl rfl
    | tail _ hstep ih => exact navInv_step ih hstep
  refine ⟨hinv, ?_, navInv_handleYearChange_ne_none hinv⟩
  intro hl
  have hmem : s.year ∈ s.availableYears := hinv.resolve_left hl
  rw [currentYearIndex, if_neg hl]
  exact ⟨jsIndexOf_nonneg_of_mem hmem, jsIndexOf_lt_length_of_mem hmem⟩

/-- Concrete instantiation of C10: the state `⟨"2025", ["2025", "2024"]⟩`
reached by a discovery step followed by `prev` from `'last'`. -/
theorem navReachable_safety_witness :
    NavInv ⟨"2025", ["2025", "2024"]⟩ ∧
    (("2025" : String) ≠ "last" →
      0 ≤ currentYearIndex "2025" ["2025", "2024"] ∧
      currentYearIndex "2025" ["2025", "2024"] <
        ((["2025", "2024"] : List String).length : Int)) ∧
    (∀ dir, handleYearChange dir "2025" ["2025", "2024"] ≠ none) :=
  navReachable_safety ⟨"2025", ["2025", "2024"]⟩
    (Relation.ReflTransGen.tail
      (Relation.ReflTransGen.tail Relation.ReflTransGen.refl
        (NavStep.discover navInit ["2025", "2024"] rfl))
      (NavStep.change ⟨"last", ["2025", "2024"]⟩ .prev "2025" (by decide)))

/-! ### Touch interaction (`handleTileTouch`, `handleTileInteraction`,
`handleOutsideClick`) -/

/-- The interaction state owned by the component in touch mode:
`activeTouch` holds the active cell's date key, `hovered` the tooltip
payload (the anchor rectangle of the source's `TooltipData` is irrelevant
to the claims and omitted). -/
structure TouchState where
  activeTouch : Option Nat
  hovered : Option Contribution
deriving DecidableEq

/-- `handleTileTouch` in touch mode: a tap on the already-active tile
clears both `activeTouch` and `hovered`; any other tap goes through
`handleTileInteraction`, which stops propagation and sets `hovered` and
`activeTouch` to the tapped day.  (`handleTileInteraction`'s early return
on a null `containerRef` cannot fire while tiles are rendered inside the
container and is not modelled.) -/
def handleTileTouch (s : TouchState) (day : Contribution) : TouchState :=
  if s.activeTouch = some day.date then ⟨none, none⟩
  else ⟨some day.date, some day⟩

/-- C8: in touch-only mode, a tap on a cell with no active cell activates
it; a tap on the active cell clears the state to `None`; a tap on a
different cell replaces the active cell in this single transition, the
resulting state being the new cell (in particular not `None` — no
intermediate cleared state exists, since the step function produces the
replacement state directly). -/
theorem touch_tap_transitions (s : TouchState) (A B : Contribution)
    (hAB : B.date ≠ A.date) :
    (s.activeTouch = none → handleTileTouch s A = ⟨some A.date, some A⟩) ∧
    (s.activeTouch = some A.date → handleTileTouch s A = ⟨none, none⟩) ∧
    (s.activeTouch = some A.date →
      handleTileTouch s B = ⟨some B.date, some B⟩ ∧
      (handleTileTouch s B).activeTouch ≠ none) := by
  refine ⟨?_, ?_, ?_⟩
  · intro h
    rw [handleTileTouch, if_neg (by rw [h]; simp)]
  · intro h
    rw [handleTileTouch, if_pos h]
  · intro h
    have hne : s.activeTouch ≠ some B.date := by
      rw [h]
      simp [hAB.symm]
    rw [handleTileTouch, if_neg hne]
    exact ⟨rfl, by simp⟩

/-- A concrete touch state with cell date 0 active. -/
def t0 : TouchState := ⟨some 0, some ⟨0, 1, 1⟩⟩

/-- Concrete instantiation of C8: cells with dates 0 and 1. -/
theorem touch_tap_transitions_witness :
    (t0.activeTouch = none →
      handleTileTouch t0 ⟨0, 1, 1⟩ = ⟨some 0, some ⟨0, 1, 1⟩⟩) ∧
    (t0.activeTouch = some 0 → handleTileTouch t0 ⟨0, 1, 1⟩ = ⟨none, none⟩) ∧
    (t0.activeTouch = some 0 →
      handleTileTouch t0 ⟨1, 2, 2⟩ = ⟨some 1, some ⟨1, 2, 2⟩⟩ ∧
      (handleTileTouch t0 ⟨1, 2, 2⟩).activeTouch ≠ none) :=
  touch_tap_transitions t0 ⟨0, 1, 1⟩ ⟨1, 2, 2⟩ (by decide)

/-- The attributes of a document-level event target that the claim talks
about: whether it lies inside the rendered grid, and whether it lies
inside the element referenced by the outer `tooltipRef` (meaningful only
when that ref holds an element). -/
structure DocEventTarget where
  inGrid : Bool
  inTooltip : Bool
deriving DecidableEq

/-- Whether the outer component's `tooltipRef.current` is non-null.  It
never is: that ref is declared with `useRef(null)` and read only inside
`handleOutsideClick`; the portaled tooltip element carries the `Tooltip`
component's own internal ref, and `Tooltip` is a plain function component
that is passed no ref at its use site. -/
def tooltipRefAttached : Bool := false

/-- `handleOutsideClick`, the document-level `touchstart`/`click` listener
installed in touch mode while a cell is active: it clears `activeTouch`
and `hovered` when
`tooltipRef.current && !tooltipRef.current.contains(e.target)` — a
non-null check on the ref, then containment of the target in the
referenced element.  The grid is never consulted.  `refCurrent` embeds
whether `tooltipRef.current` is non-null; in this program it is
`tooltipRefAttached = false`. -/
def handleOutsideClick (s : TouchState) (refCurrent : Bool)
    (t : DocEventTarget) : TouchState :=
  if refCurrent && !t.inTooltip then ⟨none, none⟩ else s

/-- C9: the outside-interaction listener never clears the active cell.
Its guard first requires `tooltipRef.current` to be non-null, but the
outer `tooltipRef` is never attached to any element, so the clearing body
never runs: for every state and every target the state is unchanged.  In
particular, at the failing input — cell 0 active, a document-level
interaction whose target lies outside both the grid and the tooltip —
the active cell stays set, where the claim requires it to be cleared. -/
theorem outsideClick_never_clears :
    (∀ (s : TouchState) (t : DocEventTarget),
      handleOutsideClick s tooltipRefAttached t = s) ∧
    (⟨false, false⟩ : DocEventTarget).inGrid = false ∧
    (⟨false, false⟩ : DocEventTarget).inTooltip = false ∧
    t0.activeTouch = some 0 ∧
    (handleOutsideClick t0 tooltipRefAttached ⟨false, false⟩).activeTouch =
      some 0 :=
  ⟨fun _ _ => rfl, rfl, rfl, rfl, rfl⟩

end NotionGithubGraph
